import Mathlib

/-
Verification of the download-orchestration core of src/data_down/statcast_downloader.py:
work-queue enumeration, stale-file cleaning, download-completion polling, artifact
commit (rename), run-level sequencing, and the CSV empty-cell normalizer.
Filesystem stores are modelled as finite lists of path names (or of path/content
pairs where contents matter); the polling loops are modelled over the finite
sequence of states observed at the polled instants.
-/

namespace Statcast

/-- Python whitespace for `str.strip()` / `str.isspace()`: tab, newline, vertical
tab, form feed, carriage return, space, the C1 separators 0x1c-0x1f, next line
0x85, no-break space 0xa0, and the Unicode space separators. -/
def pyIsSpace (c : Char) : Bool :=
  c = ' ' || c = '\t' || c = '\n' || c = '\r' ||
  c.val = 11 || c.val = 12 || (28 ≤ c.val && c.val ≤ 31) ||
  c.val = 133 || c.val = 160 || c.val = 0x1680 ||
  (0x2000 ≤ c.val && c.val ≤ 0x200a) || c.val = 0x2028 || c.val = 0x2029 ||
  c.val = 0x202f || c.val = 0x205f || c.val = 0x3000

/-- `cell.strip() == ''` from line 100 of the source: the cell is the empty
string or consists only of whitespace characters. -/
def stripIsEmpty (s : String) : Bool :=
  s.data.all pyIsSpace

/-- A parsed CSV file: `rows = list(csv.reader(f))`, each row a list of cells. -/
abbrev CsvTable := List (List String)

/-- One cell of the per-cell rule at lines 100-101: an empty-after-strip cell
becomes the literal "0", any other cell is untouched. -/
def fixCell (c : String) : String :=
  if stripIsEmpty c then ("0") else c

/-- The in-memory effect of the nested loop at lines 97-103 on one file's
rows: every cell passes through `fixCell`, at every row index including row 0. -/
def normalizeTable (t : CsvTable) : CsvTable :=
  t.map (fun row => row.map fixCell)

/-- How many cells of one row the loop replaces (each replacement does
`cells_filled += 1`). -/
def cellsFilledRow (row : List String) : Nat :=
  row.countP (fun c => stripIsEmpty c)

/-- How many cells of the whole table the loop replaces. -/
def cellsFilledTable (t : CsvTable) : Nat :=
  (t.map cellsFilledRow).sum

/-- `file_modified` after the loop: true iff some cell was empty after strip
(lines 94, 100-103). -/
def fileModified (t : CsvTable) : Bool :=
  t.any (fun row => row.any (fun c => stripIsEmpty c))

/-- The counters `fill_empty_cells_with_zeros` reports, plus the resulting
on-disk tables. -/
structure NormalizeResult where
  tables : List CsvTable
  filesModified : Nat
  cellsFilled : Nat
  deriving Repr, DecidableEq

/-- `fill_empty_cells_with_zeros` (lines 71-116) over the parsed store: a file
with zero rows is skipped (`if not rows: continue`, lines 90-91); otherwise its
cells pass through the per-cell rule, `cells_filled` accumulates the
replacements, and the file is rewritten — counting in `files_processed` — only
when some cell changed (lines 106-110). -/
def fill_empty_cells_with_zeros : List CsvTable → NormalizeResult
  | [] => ⟨[], 0, 0⟩
  | t :: rest =>
    let r := fill_empty_cells_with_zeros rest
    if t.isEmpty then
      ⟨t :: r.tables, r.filesModified, r.cellsFilled⟩
    else if fileModified t then
      ⟨normalizeTable t :: r.tables, r.filesModified + 1, r.cellsFilled + cellsFilledTable t⟩
    else
      ⟨t :: r.tables, r.filesModified, r.cellsFilled + cellsFilledTable t⟩

/-- The 30 team abbreviations, lines 18-23 of the source. -/
def MLB_TEAMS : List String :=
  [("ARI"), ("ATL"), ("BAL"), ("BOS"), ("CHC"), ("CIN"), ("CLE"), ("COL"), ("CWS"),
   ("DET"), ("HOU"), ("KC"), ("LAA"), ("LAD"), ("MIA"), ("MIL"), ("MIN"), ("NYM"),
   ("NYY"), ("OAK"), ("PHI"), ("PIT"), ("SD"), ("SEA"), ("SF"), ("STL"), ("TB"),
   ("TEX"), ("TOR"), ("WSH")]

/-- The two categories, line 25. -/
def PLAYER_TYPES : List String :=
  [("pitcher"), ("batter")]

/-- The fixed year, line 26. -/
def YEAR : Nat := 2025

/-- One fetch task: the loop variables `p_type`, `team` together with the run's
fixed year. -/
structure WorkUnit where
  p_type : String
  team : String
  year : Nat
  deriving Repr, DecidableEq

/-- `target_filename = f"{p_type}_{team}_{YEAR}.csv"`, line 130. -/
def targetFilename (u : WorkUnit) : String :=
  u.p_type ++ ("_") ++ u.team ++ ("_") ++ toString u.year ++ (".csv")

/-- The fixed transient download name `Exit_Velocity.csv`, lines 60 and 121. -/
def defaultFile : String :=
  ("Exit_Velocity.csv")

/-- The inner `for team in MLB_TEAMS` loop of lines 125-136 restricted to its
yield/skip decision: a unit whose canonical artifact already exists (`e` is the
`os.path.exists` oracle on file names) is skipped with `continue`, every other
unit is processed. -/
def pendingInner (e : String → Bool) (p : String) : List String → List WorkUnit
  | [] => []
  | team :: rest =>
    let u : WorkUnit := ⟨p, team, YEAR⟩
    if e (targetFilename u) then pendingInner e p rest
    else u :: pendingInner e p rest

/-- The yielded unit sequence of the nested loops at lines 124-136: categories
in the outer loop, teams in the inner loop, existing targets skipped. -/
def pendingUnits (e : String → Bool) : List String → List WorkUnit
  | [] => []
  | p :: rest => pendingInner e p MLB_TEAMS ++ pendingUnits e rest

/-- The unfiltered Cartesian product the same loops enumerate before the
existence check: categories outer, teams inner. -/
def fullCatalog : List WorkUnit :=
  PLAYER_TYPES.flatMap (fun p => MLB_TEAMS.map (fun team => ⟨p, team, YEAR⟩))

/-- What one iteration of the download-wait loop at lines 191-203 observes:
`os.path.exists(default_filepath)` and `os.path.exists(default_filepath + ".part")`. -/
structure PollState where
  csvExists : Bool
  partExists : Bool
  deriving Repr, DecidableEq

/-- The outcome of the wait: `downloaded` still false after the window means
the unit is skipped as a download timeout (lines 205-207). -/
inductive DownloadResult where
  | completed
  | downloadTimeout
  deriving Repr, DecidableEq

/-- The success condition of line 198: the CSV exists and the `.part` marker
does not. -/
def downloadReady (s : PollState) : Bool :=
  s.csvExists && !s.partExists

/-- The `while time.time() - start_time < timeout` loop of lines 191-203 over
the finite sequence of states observed at the polled instants inside the
timeout window: the first ready state breaks out with `downloaded = True`;
if the window ends first the unit times out. -/
def awaitCompletion : List PollState → DownloadResult
  | [] => DownloadResult.downloadTimeout
  | s :: rest =>
    if downloadReady s then DownloadResult.completed else awaitCompletion rest

/-- A store where contents matter: the association of each existing file name
to its content. -/
abbrev StoreC := List (String × String)

/-- Content of path `p` in the store, `none` when `p` does not exist. -/
def lookupC (s : StoreC) (p : String) : Option String :=
  (s.find? (fun e => e.1 = p)).map (fun e => e.2)

/-- Result of `os.rename`: either the new store state or the `OSError` raised
when the source path is missing. -/
inductive RenameResult where
  | ok (s : StoreC)
  | missingSource
  deriving Repr, DecidableEq

/-- `os.rename(src, dst)` at line 211, with POSIX semantics: it raises if `src`
is missing, and otherwise atomically gives `dst` the content of `src`,
silently replacing any file already at `dst`; no target-existence check is
performed. -/
def osRename (s : StoreC) (src dst : String) : RenameResult :=
  match lookupC s src with
  | none => RenameResult.missingSource
  | some content =>
    RenameResult.ok (((s.filter (fun e => e.1 ≠ src)).filter (fun e => e.1 ≠ dst)) ++ [(dst, content)])

/-- Whether the character list `l` ends with the character list `t`. -/
def listEndsWith (l t : List Char) : Bool :=
  l.reverse.take t.length = t.reverse

/-- Whether a file name ends in the partial-marker suffix `.part`. -/
def hasPartSuffix (p : String) : Bool :=
  listEndsWith p.data ((".part").data)

/-- Whether a file name is hidden in the sense of Python's `glob`: it begins
with a dot. -/
def isHiddenName (p : String) : Bool :=
  match p.data with
  | [] => false
  | c :: _ => c = '.'

/-- Whether `glob.glob(os.path.join(directory, "*.part"))` matches a file name:
the name must end in `.part`, and — per Python's glob rule for hidden files —
must not begin with a dot. -/
def partGlobMatch (p : String) : Bool :=
  (!isHiddenName p) && hasPartSuffix p

/-- `clear_stale_files` (lines 57-69) on a store of file names: removes
`Exit_Velocity.csv` if present and every file the `*.part` glob matches;
everything else is left in place (the function only calls `os.remove`). -/
def clear_stale_files (store : List String) : List String :=
  store.filter (fun p => !(p = defaultFile || partGlobMatch p))

/-- How one unit's attempt ends, covering the per-unit failure taxonomy:
the two `WebDriverWait` timeouts (lines 152, 160), the click-retry loop's
failure (line 183), the download wait's timeout (lines 205-207), the rename's
failure (line 211), or success. -/
inductive UnitOutcome where
  | success
  | syncTimeout
  | clickFailure
  | downloadTimeout
  | commitError
  deriving Repr, DecidableEq

/-- Observable run events, in program order: the per-unit steps of `main`'s
loop body (lines 124-220), the inter-unit sleep (line 220), and the `finally`
block's two actions (lines 222-227). -/
inductive Ev where
  | clean (u : WorkUnit)
  | navigate (u : WorkUnit)
  | waited (u : WorkUnit)
  | clicked (u : WorkUnit)
  | downloadDone (u : WorkUnit)
  | committed (u : WorkUnit)
  | pause
  | teardown
  | normalizePass
  deriving Repr, DecidableEq

/-- The events one unit's loop iteration emits, by outcome. A `WebDriverWait`
timeout, the click loop's raise and a rename error are all caught by the
handlers at lines 214-217 and fall through to `time.sleep(2)`; the download
timeout instead leaves the iteration with `continue` (line 207), jumping past
the sleep. -/
def unitEvents (u : WorkUnit) (o : UnitOutcome) : List Ev :=
  [Ev.clean u, Ev.navigate u] ++
  (match o with
   | UnitOutcome.syncTimeout => []
   | UnitOutcome.clickFailure => [Ev.waited u]
   | UnitOutcome.downloadTimeout => [Ev.waited u, Ev.clicked u]
   | UnitOutcome.commitError => [Ev.waited u, Ev.clicked u, Ev.downloadDone u]
   | UnitOutcome.success => [Ev.waited u, Ev.clicked u, Ev.downloadDone u, Ev.committed u]) ++
  (if o = UnitOutcome.downloadTimeout then [] else [Ev.pause])

/-- The whole run's event trace for a given sequence of attempted units and
their outcomes: the loop iterations in order, then — on every such exit path,
since each of the five outcomes is absorbed inside the loop body — the
`finally` block: `driver.quit()` then the one normalization pass. -/
def runTrace : List (WorkUnit × UnitOutcome) → List Ev
  | [] => [Ev.teardown, Ev.normalizePass]
  | pr :: rest => unitEvents pr.1 pr.2 ++ runTrace rest

/-- First unit of the catalog, used as a concrete run input. -/
def unitA : WorkUnit :=
  ⟨("pitcher"), ("ARI"), 2025⟩

/-- Second unit of the catalog, used as a concrete run input. -/
def unitB : WorkUnit :=
  ⟨("pitcher"), ("ATL"), 2025⟩

theorem stripIsEmpty_zero : stripIsEmpty ("0") = false := by
  decide

theorem stripIsEmpty_fixCell (c : String) : stripIsEmpty (fixCell c) = false := by
  cases h : stripIsEmpty c
  · simp [fixCell, h]
  · simpa [fixCell, h] using stripIsEmpty_zero

theorem fixCell_idem (c : String) : fixCell (fixCell c) = fixCell c := by
  simp only [fixCell]
  cases h : stripIsEmpty c
  · simp [h]
  · simp [h, stripIsEmpty_zero]

theorem mapFixCell_idem (row : List String) :
    (row.map fixCell).map fixCell = row.map fixCell := by
  induction row with
  | nil => rfl
  | cons c cs ih => simp [fixCell_idem, ih]

theorem normalizeTable_idem (t : CsvTable) :
    normalizeTable (normalizeTable t) = normalizeTable t := by
  induction t with
  | nil => rfl
  | cons row rest ih =>
    simp only [normalizeTable, List.map_cons] at ih ⊢
    rw [mapFixCell_idem, ih]

theorem rowBlank_map_fixCell (row : List String) :
    (row.map fixCell).any (fun c => stripIsEmpty c) = false := by
  induction row with
  | nil => rfl
  | cons c cs ih => simp [stripIsEmpty_fixCell, ih]

theorem fileModified_normalizeTable (t : CsvTable) :
    fileModified (normalizeTable t) = false := by
  induction t with
  | nil => rfl
  | cons row rest ih =>
    simp only [fileModified, normalizeTable, List.map_cons, List.any_cons] at ih ⊢
    simp [ih]
    intro x _
    exact stripIsEmpty_fixCell x

theorem row_map_fixCell_of_no_blank (row : List String)
    (h : row.any (fun c => stripIsEmpty c) = false) : row.map fixCell = row := by
  induction row with
  | nil => rfl
  | cons c cs ih =>
    simp only [List.any_cons, Bool.or_eq_false_iff] at h
    simp [fixCell, h.1, ih h.2]

theorem normalizeTable_of_not_modified (t : CsvTable)
    (h : fileModified t = false) : normalizeTable t = t := by
  induction t with
  | nil => rfl
  | cons row rest ih =>
    simp only [fileModified, List.any_cons, Bool.or_eq_false_iff] at h
    simp only [normalizeTable, List.map_cons]
    rw [row_map_fixCell_of_no_blank row h.1]
    have := ih h.2
    simp only [normalizeTable] at this
    rw [this]

theorem cellsFilledRow_of_no_blank (row : List String)
    (h : row.any (fun c => stripIsEmpty c) = false) : cellsFilledRow row = 0 := by
  rw [cellsFilledRow, List.countP_eq_zero]
  intro a ha
  simp only [List.any_eq_false] at h
  simpa using h a ha

theorem cellsFilledTable_of_not_modified (t : CsvTable)
    (h : fileModified t = false) : cellsFilledTable t = 0 := by
  induction t with
  | nil => rfl
  | cons row rest ih =>
    simp only [fileModified, List.any_cons, Bool.or_eq_false_iff] at h
    simp only [cellsFilledTable, List.map_cons, List.sum_cons] at ih ⊢
    rw [cellsFilledRow_of_no_blank row h.1]
    simpa using ih h.2

theorem cellsFilledTable_normalizeTable (t : CsvTable) :
    cellsFilledTable (normalizeTable t) = 0 :=
  cellsFilledTable_of_not_modified _ (fileModified_normalizeTable t)

theorem isEmpty_normalizeTable (t : CsvTable) :
    (normalizeTable t).isEmpty = t.isEmpty := by
  cases t <;> rfl

theorem fill_twice (ts : List CsvTable) :
    fill_empty_cells_with_zeros (fill_empty_cells_with_zeros ts).tables
      = ⟨(fill_empty_cells_with_zeros ts).tables, 0, 0⟩ := by
  induction ts with
  | nil => rfl
  | cons t rest ih =>
    by_cases he : t.isEmpty
    · simp [fill_empty_cells_with_zeros, he, ih]
    · by_cases hm : fileModified t
      · simp [fill_empty_cells_with_zeros, he, hm, isEmpty_normalizeTable,
          fileModified_normalizeTable, cellsFilledTable_normalizeTable, ih]
      · simp only [Bool.not_eq_true] at hm
        simp [fill_empty_cells_with_zeros, he, hm,
          cellsFilledTable_of_not_modified t hm, ih]

/-- C4: cell-level normalization is idempotent — `normalize (normalize T) =
normalize T` for every table, because no cell of a normalized table is empty
after the first pass — and a second run of `fill_empty_cells_with_zeros` over
the unchanged store modifies nothing: it rewrites no file and reports
`filesModified = 0` (and fills no further cell). -/
theorem c4_normalizer_idempotent (t : CsvTable) (ts : List CsvTable) :
    normalizeTable (normalizeTable t) = normalizeTable t ∧
    fileModified (normalizeTable t) = false ∧
    fill_empty_cells_with_zeros (fill_empty_cells_with_zeros ts).tables
      = ⟨(fill_empty_cells_with_zeros ts).tables, 0, 0⟩ :=
  ⟨normalizeTable_idem t, fileModified_normalizeTable t, fill_twice ts⟩

theorem cell_changed_iff (c : String) :
    (!(decide (c = fixCell c))) = stripIsEmpty c := by
  cases h : stripIsEmpty c
  · simp [fixCell, h]
  · simp only [fixCell, h, if_true, Bool.not_eq_true', decide_eq_false_iff_not]
    intro heq
    rw [heq] at h
    exact absurd h (by decide)

theorem cellsFilledRow_changed (row : List String) :
    cellsFilledRow row
      = (row.zip (row.map fixCell)).countP (fun cc => !(cc.1 = cc.2)) := by
  induction row with
  | nil => rfl
  | cons c cs ih =>
    simp only [cellsFilledRow, List.map_cons, List.zip_cons_cons,
      List.countP_cons] at ih ⊢
    rw [ih, cell_changed_iff]

theorem cellsFilledTable_changed (t : CsvTable) :
    cellsFilledTable t
      = ((t.zip (normalizeTable t)).map
          (fun pr => (pr.1.zip pr.2).countP (fun cc => !(cc.1 = cc.2)))).sum := by
  induction t with
  | nil => rfl
  | cons row rest ih =>
    simp only [cellsFilledTable, normalizeTable, List.map_cons,
      List.zip_cons_cons, List.sum_cons] at ih ⊢
    rw [cellsFilledRow_changed, ih]

/-- C5: the normalizer replaces exactly the cells whose stripped content is
empty with the literal "0" and leaves every other cell unchanged, at every
position including row 0; `cellsFilled` counts exactly the changed cells; a
file is rewritten only when some cell changed (`fileModified` is true iff the
table changed); and the concrete scenario from the spec holds with
`cellsFilled = 2`. -/
theorem c5_normalizer_cell_rule (t : CsvTable) (i j : Nat) :
    ((normalizeTable t)[i]?.bind (fun row => row[j]?))
      = ((t[i]?.bind (fun row => row[j]?)).map
          (fun c => if stripIsEmpty c then ("0") else c)) ∧
    (fileModified t = true ↔ ¬ normalizeTable t = t) ∧
    cellsFilledTable t
      = ((t.zip (normalizeTable t)).map
          (fun pr => (pr.1.zip pr.2).countP (fun cc => !(cc.1 = cc.2)))).sum ∧
    normalizeTable [[("a"), ("b")], [(""), ("2")], [("3"), ("")]]
      = [[("a"), ("b")], [("0"), ("2")], [("3"), ("0")]] ∧
    cellsFilledTable [[("a"), ("b")], [(""), ("2")], [("3"), ("")]] = 2 := by
  refine ⟨?_, ⟨?_, ?_⟩, cellsFilledTable_changed t, by decide, by decide⟩
  · simp only [normalizeTable, List.getElem?_map]
    cases hrow : t[i]? with
    | none => rfl
    | some row =>
      cases hc : row[j]? <;> simp [List.getElem?_map, hc, fixCell]
  · intro h heq
    have h2 := fileModified_normalizeTable t
    rw [heq] at h2
    rw [h] at h2
    exact absurd h2 (by decide)
  · intro h
    by_contra hf
    simp only [Bool.not_eq_true] at hf
    exact h (normalizeTable_of_not_modified t hf)

/-- C10: a CSV file that parses to zero rows is skipped by the normalizer: its
entry in the store is untouched, it contributes nothing to `cellsFilled` and
is not counted in `filesModified`. -/
theorem c10_zero_row_file_skipped (ts : List CsvTable) :
    fill_empty_cells_with_zeros (([] : CsvTable) :: ts)
      = ⟨([] : CsvTable) :: (fill_empty_cells_with_zeros ts).tables,
         (fill_empty_cells_with_zeros ts).filesModified,
         (fill_empty_cells_with_zeros ts).cellsFilled⟩ := by
  rfl

/-- C2: over the sequence of states observed at the polled instants inside the
timeout window, the download wait reports completion iff at some polled instant
the transient CSV exists and its `.part` marker does not; if that condition
holds at no polled instant in the window it reports a download timeout. -/
theorem c2_awaitCompletion_iff (polls : List PollState) :
    (awaitCompletion polls = DownloadResult.completed
      ↔ ∃ s ∈ polls, downloadReady s = true) ∧
    (awaitCompletion polls = DownloadResult.downloadTimeout
      ↔ ∀ s ∈ polls, downloadReady s = false) := by
  induction polls with
  | nil => simp [awaitCompletion]
  | cons s rest ih =>
    cases h : downloadReady s
    · simpa [awaitCompletion, h] using ih
    · simp [awaitCompletion, h]

theorem pendingInner_eq_filter (e : String → Bool) (p : String) (teams : List String) :
    pendingInner e p teams
      = ((teams.map (fun team => (⟨p, team, YEAR⟩ : WorkUnit))).filter
          (fun u => !(e (targetFilename u)))) := by
  induction teams with
  | nil => rfl
  | cons team rest ih =>
    simp only [pendingInner, List.map_cons, List.filter_cons]
    cases h : e (targetFilename ⟨p, team, YEAR⟩) <;> simp [h, ih]

theorem pendingUnits_eq_filter (e : String → Bool) (ps : List String) :
    pendingUnits e ps
      = ((ps.flatMap (fun p => MLB_TEAMS.map (fun team => (⟨p, team, YEAR⟩ : WorkUnit)))).filter
          (fun u => !(e (targetFilename u)))) := by
  induction ps with
  | nil => rfl
  | cons p rest ih =>
    simp only [pendingUnits, List.flatMap_cons, List.filter_append]
    rw [pendingInner_eq_filter, ih]

/-- C3: for a fixed filesystem state `e`, the loop of lines 124-136 yields
exactly the Cartesian product of the category enumeration (outer loop) and the
team enumeration (inner loop) with every unit whose canonical artifact already
exists removed; the yielded sequence is an order-preserving subsequence of the
full product and no yielded unit has an existing canonical artifact. -/
theorem c3_work_queue_filter (e : String → Bool) :
    pendingUnits e PLAYER_TYPES = fullCatalog.filter (fun u => !(e (targetFilename u))) ∧
    (pendingUnits e PLAYER_TYPES).Sublist fullCatalog ∧
    (∀ u, u ∈ pendingUnits e PLAYER_TYPES → e (targetFilename u) = false ∧ u ∈ fullCatalog) := by
  have heq : pendingUnits e PLAYER_TYPES
      = fullCatalog.filter (fun u => !(e (targetFilename u))) :=
    pendingUnits_eq_filter e PLAYER_TYPES
  refine ⟨heq, ?_, ?_⟩
  · rw [heq]
    exact List.filter_sublist fullCatalog
  · intro u hu
    rw [heq] at hu
    have h2 := List.mem_filter.mp hu
    refine ⟨?_, h2.1⟩
    simpa using h2.2

/-- C6 counterexample: a store holding only the file `.stale.part` — a
partial-marker-suffixed name that begins with a dot. Python's glob pattern
`*.part` does not match hidden names, so `clear_stale_files` leaves the file
in place: after cleaning, a partial-marker-suffixed path still exists,
refuting the claim as stated. -/
theorem c6_counterexample_hidden_part_file :
    clear_stale_files [(".stale.part")] = [(".stale.part")] ∧
    hasPartSuffix (".stale.part") = true ∧
    (".stale.part") ∈ clear_stale_files [(".stale.part")] := by
  decide

theorem mem_clear_stale_files {store : List String} {p : String}
    (h : p ∈ clear_stale_files store) :
    p ∈ store ∧ ¬ p = defaultFile ∧ partGlobMatch p = false := by
  have h2 := List.mem_filter.mp h
  refine ⟨h2.1, ?_, ?_⟩
  · have := h2.2
    simp only [Bool.not_eq_true', Bool.or_eq_false_iff, decide_eq_false_iff_not] at this
    exact this.1
  · have := h2.2
    simp only [Bool.not_eq_true', Bool.or_eq_false_iff, decide_eq_false_iff_not] at this
    exact this.2

/-- C6 amended: for every prior store state the cleaner succeeds (it is a total
function on store states), afterwards the transient artifact path does not
exist and no non-hidden partial-marker-suffixed path exists — a `.part` file
whose name begins with a dot escapes the `*.part` glob and survives — and
running the cleaner twice has the same effect as running it once. -/
theorem c6_clean_stale_state (store : List String) :
    defaultFile ∉ clear_stale_files store ∧
    (∀ p, p ∈ clear_stale_files store → isHiddenName p = false →
      hasPartSuffix p = false) ∧
    clear_stale_files (clear_stale_files store) = clear_stale_files store := by
  refine ⟨?_, ?_, ?_⟩
  · intro hmem
    exact absurd rfl (mem_clear_stale_files hmem).2.1
  · intro p hmem hhid
    have h3 := (mem_clear_stale_files hmem).2.2
    simpa [partGlobMatch, hhid] using h3
  · simp only [clear_stale_files]
    rw [List.filter_eq_self]
    intro p hmem
    exact (List.mem_filter.mp hmem).2

/-- C9: the stale-state cleaner removes only the fixed transient name and
paths the `*.part` glob matches: every file that is neither `Exit_Velocity.csv`
nor `.part`-suffixed is still present after cleaning, and in particular every
canonical artifact name of the catalog is of that untouched shape. -/
theorem c9_clean_frame (store : List String) (p : String) (hmem : p ∈ store)
    (hdef : ¬ p = defaultFile) (hpart : hasPartSuffix p = false) :
    p ∈ clear_stale_files store ∧
    (∀ u, u ∈ fullCatalog →
      ¬ targetFilename u = defaultFile ∧ hasPartSuffix (targetFilename u) = false) := by
  constructor
  · rw [clear_stale_files]
    refine List.mem_filter.mpr ⟨hmem, ?_⟩
    simp [hdef, partGlobMatch, hpart]
  · decide

/-- Witness for C9: the canonical artifact `pitcher_ARI_2025.csv` survives a
cleaning of the store that holds it together with genuine stale files. -/
theorem c9_clean_frame_witness :
    ("pitcher_ARI_2025.csv")
      ∈ clear_stale_files [("Exit_Velocity.csv"), ("Exit_Velocity.csv.part"), ("pitcher_ARI_2025.csv")] :=
  (c9_clean_frame [("Exit_Velocity.csv"), ("Exit_Velocity.csv.part"), ("pitcher_ARI_2025.csv")]
    ("pitcher_ARI_2025.csv") (by decide) (by decide) (by decide)).1

/-- C1 counterexample: a store where the canonical artifact
`pitcher_ARI_2025.csv` (content "old") already exists when the commit rename
of line 211 runs on the transient `Exit_Velocity.csv` (content "fresh").
Under POSIX `os.rename` semantics the rename succeeds — no error of any kind
is reported — and the canonical path's content silently changes from "old" to
"fresh": the canonical path is NOT left unchanged and the existing canonical
artifact IS overwritten, refuting the claim as stated. -/
theorem c1_counterexample_rename_overwrites :
    osRename [((("Exit_Velocity.csv")), (("fresh"))), ((("pitcher_ARI_2025.csv")), (("old")))]
        defaultFile ("pitcher_ARI_2025.csv")
      = RenameResult.ok [((("pitcher_ARI_2025.csv")), (("fresh")))] ∧
    lookupC [((("Exit_Velocity.csv")), (("fresh"))), ((("pitcher_ARI_2025.csv")), (("old")))]
        ("pitcher_ARI_2025.csv") = some ("old") ∧
    lookupC [((("pitcher_ARI_2025.csv")), (("fresh")))] ("pitcher_ARI_2025.csv")
      = some ("fresh") ∧
    ¬ (("fresh") : String) = ("old") := by
  decide

theorem lookupC_append_single_hit (l : StoreC) (dst c : String)
    (h : ∀ e, e ∈ l → ¬ e.1 = dst) :
    lookupC (l ++ [(dst, c)]) dst = some c := by
  induction l with
  | nil => simp [lookupC]
  | cons a l ih =>
    have ih2 := ih (fun e he => h e (List.mem_cons_of_mem a he))
    simp only [lookupC] at ih2 ⊢
    rw [List.cons_append, List.find?_cons_of_neg]
    · exact ih2
    · simpa using h a (List.mem_cons_self a l)

theorem lookupC_eq_none_of_no_key (l : StoreC) (p : String)
    (h : ∀ e, e ∈ l → ¬ e.1 = p) : lookupC l p = none := by
  have hfind : l.find? (fun e => decide (e.1 = p)) = none :=
    List.find?_eq_none.mpr (fun x hx => by simpa using h x hx)
  simp [lookupC, hfind]

/-- C1 amended: `commit` is the unconditional rename `os.rename(transient,
canonical)`; under POSIX semantics it fails only when the transient path is
missing, and whenever the transient exists it succeeds — even when the
canonical path already exists, in which case the canonical artifact is
silently replaced by the transient one rather than a `targetExists` error
being raised. After the rename the canonical path holds the transient's
content and the transient path is gone. (Within a run the orchestrator reaches
the rename only for units whose canonical path was absent at the unit's
existence check, line 134.) -/
theorem c1_commit_rename_semantics (s : StoreC) (src dst content : String)
    (hsrc : lookupC s src = some content) (hne : ¬ src = dst) :
    ∃ s2, osRename s src dst = RenameResult.ok s2 ∧
      lookupC s2 dst = some content ∧ lookupC s2 src = none := by
  refine ⟨((s.filter (fun e => e.1 ≠ src)).filter (fun e => e.1 ≠ dst)) ++ [(dst, content)],
    ?_, ?_, ?_⟩
  · simp [osRename, hsrc]
  · apply lookupC_append_single_hit
    intro e he
    have h2 := (List.mem_filter.mp he).2
    simpa using h2
  · apply lookupC_eq_none_of_no_key
    intro e he
    rcases List.mem_append.mp he with h1 | h1
    · have h2 := (List.mem_filter.mp (List.mem_filter.mp h1).1).2
      simpa using h2
    · rw [List.mem_singleton] at h1
      subst h1
      intro heq
      exact hne heq.symm

/-- Witness for C1's amended theorem at a concrete store: the transient file
exists with content "data", the canonical name is free, and the rename moves
the content to the canonical name. -/
theorem c1_commit_rename_semantics_witness :
    ∃ s2, osRename [((("Exit_Velocity.csv")), (("data")))]
        ("Exit_Velocity.csv") ("pitcher_ARI_2025.csv") = RenameResult.ok s2 ∧
      lookupC s2 ("pitcher_ARI_2025.csv") = some ("data") ∧
      lookupC s2 ("Exit_Velocity.csv") = none :=
  c1_commit_rename_semantics [((("Exit_Velocity.csv")), (("data")))]
    ("Exit_Velocity.csv") ("pitcher_ARI_2025.csv") ("data") (by decide) (by decide)

theorem clean_mem_unitEvents (u : WorkUnit) (o : UnitOutcome) :
    Ev.clean u ∈ unitEvents u o ∧ Ev.navigate u ∈ unitEvents u o := by
  cases o <;> simp [unitEvents]

theorem teardown_notMem_unitEvents (u : WorkUnit) (o : UnitOutcome) :
    Ev.teardown ∉ unitEvents u o := by
  cases o <;> simp [unitEvents]

theorem normalizePass_notMem_unitEvents (u : WorkUnit) (o : UnitOutcome) :
    Ev.normalizePass ∉ unitEvents u o := by
  cases o <;> simp [unitEvents]

theorem count_teardown_unitEvents (u : WorkUnit) (o : UnitOutcome) :
    (unitEvents u o).count Ev.teardown = 0 :=
  List.count_eq_zero.mpr (teardown_notMem_unitEvents u o)

theorem count_normalizePass_unitEvents (u : WorkUnit) (o : UnitOutcome) :
    (unitEvents u o).count Ev.normalizePass = 0 :=
  List.count_eq_zero.mpr (normalizePass_notMem_unitEvents u o)

/-- C7: whatever the attempted units and their per-unit outcomes — every mix of
success, synchronization timeout, click failure, download timeout and commit
error — every unit of the run is cleaned and navigated (each failure is
absorbed at the unit boundary, so the remaining units still run), and the
session teardown and the single normalization pass each occur exactly once, at
the very end of the trace, on every such exit path. -/
theorem c7_unit_isolation (run : List (WorkUnit × UnitOutcome)) :
    (∀ pr, pr ∈ run →
      Ev.clean pr.1 ∈ runTrace run ∧ Ev.navigate pr.1 ∈ runTrace run) ∧
    (runTrace run).count Ev.teardown = 1 ∧
    (runTrace run).count Ev.normalizePass = 1 ∧
    (∃ pre, runTrace run = pre ++ [Ev.teardown, Ev.normalizePass] ∧
      Ev.teardown ∉ pre ∧ Ev.normalizePass ∉ pre) := by
  induction run with
  | nil =>
    refine ⟨fun pr hpr => absurd hpr (List.not_mem_nil pr), by decide, by decide,
      ⟨[], rfl, by simp, by simp⟩⟩
  | cons pr rest ih =>
    obtain ⟨ihm, iht, ihn, pre, hpre, hpt, hpn⟩ := ih
    have htrace : runTrace (pr :: rest) = unitEvents pr.1 pr.2 ++ runTrace rest := rfl
    refine ⟨?_, ?_, ?_, ⟨unitEvents pr.1 pr.2 ++ pre, ?_, ?_, ?_⟩⟩
    · intro q hq
      rcases List.mem_cons.mp hq with h | h
      · subst h
        rw [htrace]
        exact ⟨List.mem_append_left _ (clean_mem_unitEvents q.1 q.2).1,
          List.mem_append_left _ (clean_mem_unitEvents q.1 q.2).2⟩
      · rw [htrace]
        exact ⟨List.mem_append_right _ (ihm q h).1,
          List.mem_append_right _ (ihm q h).2⟩
    · rw [htrace, List.count_append, count_teardown_unitEvents, iht]
    · rw [htrace, List.count_append, count_normalizePass_unitEvents, ihn]
    · rw [htrace, hpre, List.append_assoc]
    · intro hmem
      rcases List.mem_append.mp hmem with h | h
      · exact teardown_notMem_unitEvents pr.1 pr.2 h
      · exact hpt h
    · intro hmem
      rcases List.mem_append.mp hmem with h | h
      · exact normalizePass_notMem_unitEvents pr.1 pr.2 h
      · exact hpn h

/-- C8 counterexample: a run whose first unit times out in the download wait
and whose second unit succeeds. The second unit is attempted (its cleaning
event is in the trace), yet no pause event occurs anywhere before its cleaning
begins: the `continue` at line 207 jumps past the `time.sleep(2)` of line 220,
refuting the claim for the download-timeout outcome. -/
theorem c8_counterexample_no_pause_after_download_timeout :
    Ev.clean unitB
      ∈ runTrace [(unitA, UnitOutcome.downloadTimeout), (unitB, UnitOutcome.success)] ∧
    Ev.pause
      ∉ (runTrace [(unitA, UnitOutcome.downloadTimeout),
          (unitB, UnitOutcome.success)]).takeWhile (fun e => !(e = Ev.clean unitB)) ∧
    (runTrace [(unitA, UnitOutcome.downloadTimeout),
        (unitB, UnitOutcome.success)]).takeWhile (fun e => !(e = Ev.clean unitB))
      = [Ev.clean unitA, Ev.navigate unitA, Ev.waited unitA, Ev.clicked unitA] := by
  decide

/-- C8 amended: the run trace is the concatenation of the per-unit event
segments; after a unit whose outcome is success, synchronization timeout,
click failure or commit error, the fixed pause is the last event of the
segment — so it separates that unit from the next unit's cleaning — but after
a download timeout the unit's segment contains no pause at all: the next
unit's cleaning begins with no intervening pause. -/
theorem c8_inter_unit_pause (u : WorkUnit) (o : UnitOutcome)
    (rest : List (WorkUnit × UnitOutcome)) :
    runTrace ((u, o) :: rest) = unitEvents u o ++ runTrace rest ∧
    (¬ o = UnitOutcome.downloadTimeout → (unitEvents u o).getLast? = some Ev.pause) ∧
    (o = UnitOutcome.downloadTimeout → Ev.pause ∉ unitEvents u o) := by
  refine ⟨rfl, ?_, ?_⟩
  · intro h
    cases o with
    | success => rfl
    | syncTimeout => rfl
    | clickFailure => rfl
    | downloadTimeout => exact absurd rfl h
    | commitError => rfl
  · intro h
    subst h
    simp [unitEvents]

end Statcast
